import Mathlib

/-!
Verification of the snapmixer core (src/main.rs) against its specification.

The Rust source is shallowly embedded: `f64` becomes `ℚ`, `usize` becomes `ℕ`,
`HashMap` becomes an association list with lookup/insert, Rust string ordering
(`String::cmp`, lexicographic on code points) becomes `strLe`, and operations
that can panic (`Ord::clamp` with `min > max`, `Vec` indexing out of bounds)
return an explicit `panic` outcome.
-/

namespace Snapmixer

/-! ### Rust string ordering (`String::cmp` is lexicographic) -/

/-- Lexicographic comparison of char lists by code point, embedding Rust's
`Ord for String` (UTF-8 byte order coincides with code-point order). -/
def listLeB : List Char → List Char → Bool
  | [], _ => true
  | _ :: _, [] => false
  | a :: as, b :: bs =>
    if a.toNat < b.toNat then true
    else if b.toNat < a.toNat then false
    else listLeB as bs

/-- Rust `a.cmp(&b) != Greater` on strings. -/
def strLe (a b : String) : Bool := listLeB a.data b.data

/-! ### Data model (snapcast_control types used by the core) -/

/-- Rust `ClientVolume { percent: usize, muted: bool }`. -/
structure ClientVolume where
  percent : Nat
  muted : Bool
  deriving DecidableEq, Repr

/-- The part of `client::Client` config the core reads: name and volume. -/
structure ClientConfig where
  name : String
  volume : ClientVolume
  deriving DecidableEq, Repr

/-- Host information of a client; only the name is read. -/
structure ClientHost where
  name : String
  deriving DecidableEq, Repr

/-- Rust `client::Client`: id, host and config. -/
structure Client where
  id : String
  host : ClientHost
  config : ClientConfig
  deriving DecidableEq, Repr

/-- Rust `StateGroup`: id, name, muted flag and member client ids. -/
structure Group where
  id : String
  name : String
  muted : Bool
  clients : List String
  deriving DecidableEq, Repr

/-- Rust `snapcast_control::State`: the two maps `groups` and `clients`,
embedded as lists (map iteration order becomes list order; key uniqueness is
taken as a hypothesis where a proof needs it). -/
structure SnapcastState where
  groups : List Group
  clients : List Client
  deriving DecidableEq, Repr

/-- Rust `AppState` (src/main.rs lines 105-112). -/
structure AppState where
  focus : Option String
  fractional_volumes : List (String × ℚ)
  error_messages : List String
  connected : Bool
  reconnect_attempts : Nat
  connection_stale : Bool
  deriving DecidableEq, Repr

/-- Rust `AppState::new`. -/
def AppState.new : AppState :=
  { focus := none
    fractional_volumes := []
    error_messages := []
    connected := false
    reconnect_attempts := 0
    connection_stale := false }

/-! ### The fractional-volume map (`HashMap<String, f64>`) -/

/-- `HashMap::get` on the embedded association list. -/
def mapLookup (m : List (String × ℚ)) (k : String) : Option ℚ :=
  (m.find? (fun p => p.1 == k)).map Prod.snd

/-- `HashMap::insert` on the embedded association list (replaces any existing
binding for the key). -/
def mapInsert (m : List (String × ℚ)) (k : String) (v : ℚ) : List (String × ℚ) :=
  (k, v) :: m.filter (fun p => !(p.1 == k))

/-! ### Name resolution and sorting (src/main.rs lines 779-836) -/

/-- Rust `get_group_name`. -/
def get_group_name (g : Group) : String :=
  if g.name.isEmpty then "Group with ID " ++ g.id else g.name

/-- Rust `get_client_name`. -/
def get_client_name (c : Client) : String :=
  if c.config.name.isEmpty then
    if c.host.name.isEmpty then "Client with ID " ++ c.id
    else "Client on host " ++ c.host.name
  else c.config.name

/-- The comparator of `sort_groups`: displayed group name, Rust string order. -/
def groupLe (a b : Group) : Prop :=
  strLe (get_group_name a) (get_group_name b) = true

instance : DecidableRel groupLe := fun a b =>
  inferInstanceAs (Decidable (strLe (get_group_name a) (get_group_name b) = true))

/-- The comparator of `sort_clients`: displayed client name, Rust string order. -/
def clientLe (a b : Client) : Prop :=
  strLe (get_client_name a) (get_client_name b) = true

instance : DecidableRel clientLe := fun a b =>
  inferInstanceAs (Decidable (strLe (get_client_name a) (get_client_name b) = true))

/-- Rust `sort_groups`: stable sort of the groups by displayed name
(`Vec::sort_by` is stable; `insertionSort` is the stable sort for the same
total preorder). -/
def sort_groups (s : SnapcastState) : List Group :=
  s.groups.insertionSort groupLe

/-- Rust `sort_clients`: resolve the group's member ids in the state's client
map, dropping unresolvable ids, then stable-sort by displayed client name. -/
def sort_clients (g : Group) (s : SnapcastState) : List Client :=
  (g.clients.filterMap (fun id => s.clients.find? (fun c => c.id == id))).insertionSort clientLe

/-- Rust `get_all_focusable_ids` (src/main.rs lines 139-148). -/
def get_all_focusable_ids (s : SnapcastState) : List String :=
  (sort_groups s).flatMap (fun g => g.id :: (sort_clients g s).map Client.id)

/-! ### Focus navigation (src/main.rs lines 150-273) -/

/-- Result of a navigation call: Rust returns `Option<AppState>` (`none` means
no change) but can also panic on out-of-range clamp or indexing. -/
inductive MoveResult where
  | panic
  | noChange
  | changed (st : AppState)
  deriving DecidableEq, Repr

/-- Rust `i16::clamp(lo, hi)`, which panics when `lo > hi`. -/
def clampPanic (x lo hi : ℤ) : Option ℤ :=
  if lo ≤ hi then some (max lo (min x hi)) else none

/-- Shared tail of `move_focus` and `move_focus_group`: build the new state if
the focus changed, else report no change. -/
def finishMove (app : AppState) (newFocus : Option String) : MoveResult :=
  if newFocus ≠ app.focus then .changed { app with focus := newFocus } else .noChange

/-- Rust `move_focus` (src/main.rs lines 150-199). The fallback entry point is
computed eagerly (as in the source), so an empty topology panics in the clamp. -/
def move_focus (delta : ℤ) (app : AppState) (s : SnapcastState) : MoveResult :=
  let ids := get_all_focusable_ids s
  let len : ℤ := ids.length
  match clampPanic ((if delta > 0 then (-1 : ℤ) else len) + delta) 0 (len - 1) with
  | none => .panic
  | some fi =>
    match ids.get? fi.toNat with
    | none => .panic
    | some fb =>
      match app.focus with
      | none => finishMove app (some fb)
      | some cur =>
        match ids.findIdx? (fun x => x == cur) with
        | none => finishMove app (some fb)
        | some ci =>
          let ti : ℤ := (ci : ℤ) + delta
          if ti < 0 then
            if ci > 0 then finishMove app ids.head? else .noChange
          else if ti ≥ len then
            if (ci : ℤ) < len then finishMove app ids.getLast? else .noChange
          else
            match ids.get? ti.toNat with
            | none => .panic
            | some x => finishMove app (some x)

/-- Rust `get_group_id_of_client` (src/main.rs lines 201-208). -/
def get_group_id_of_client (cid : String) (s : SnapcastState) : Option String :=
  (sort_groups s).findSome? (fun g => if g.clients.contains cid then some g.id else none)

/-- Rust `move_focus_group` (src/main.rs lines 210-273). Note the endpoint
branch clamps the target index to `[0, len]` (not `len - 1`) before indexing. -/
def move_focus_group (delta : ℤ) (app : AppState) (s : SnapcastState) : MoveResult :=
  let ids : List String := (sort_groups s).map Group.id
  let len : ℤ := ids.length
  match clampPanic ((if delta > 0 then (-1 : ℤ) else len) + delta) 0 (len - 1) with
  | none => .panic
  | some fi =>
    match ids.get? fi.toNat with
    | none => .panic
    | some fb =>
      match app.focus with
      | none => finishMove app (some fb)
      | some cur =>
        match ids.findIdx? (fun x => x == cur) with
        | none =>
          match get_group_id_of_client cur s with
          | none => finishMove app (some fb)
          | some gid =>
            match ids.findIdx? (fun t => t == gid) with
            | none => finishMove app (some fb)
            | some p =>
              match clampPanic ((p : ℤ) + delta + (if delta > 0 then 0 else 1)) 0 len with
              | none => .panic
              | some ti =>
                match ids.get? ti.toNat with
                | none => .panic
                | some x => finishMove app (some x)
        | some ci =>
          let ti : ℤ := (ci : ℤ) + delta
          if ti < 0 then
            if ci > 0 then finishMove app ids.head? else .noChange
          else if ti ≥ len then
            if (ci : ℤ) < len then finishMove app ids.getLast? else .noChange
          else
            match ids.get? ti.toNat with
            | none => .panic
            | some x => finishMove app (some x)

/-! ### Volume engine (src/main.rs lines 126-137 and 275-406) -/

/-- Rust `f64::round` (round half away from zero). -/
def roundAway (x : ℚ) : ℤ := if 0 ≤ x then ⌊x + 1 / 2⌋ else -⌊-x + 1 / 2⌋

/-- Rust `f64 as usize` on an integer value (saturating at zero from below). -/
def intToUsize (x : ℤ) : ℕ := x.toNat

/-- Rust `x.clamp(0.0, 100.0)`. -/
def clamp01 (x : ℚ) : ℚ := max 0 (min x 100)

/-- The fractional shadow volume of a client, falling back to the
server-reported integer percent when no shadow entry exists. -/
def effectiveVolume (app : AppState) (c : Client) : ℚ :=
  (mapLookup app.fractional_volumes c.id).getD (c.config.volume.percent : ℚ)

/-- Rust `AppState::update_fractional_volumes` loop body (src/main.rs lines
127-135), as explicit sequential recursion over the client list. -/
def updateLoop : List Client → List (String × ℚ) → List (String × ℚ)
  | [], m => m
  | c :: rest, m =>
    let fractional := (mapLookup m c.id).getD (-1)
    let m1 :=
      if c.config.volume.percent ≠ intToUsize (roundAway fractional) then
        mapInsert m c.id (c.config.volume.percent : ℚ)
      else m
    updateLoop rest m1

/-- Rust `AppState::update_fractional_volumes` (src/main.rs lines 126-137). -/
def update_fractional_volumes (app : AppState) (s : SnapcastState) : AppState :=
  { app with fractional_volumes := updateLoop s.clients app.fractional_volumes }

/-- The member clients of a group, as filtered in `set_volume` (src/main.rs
lines 288-293): every client of the state whose id the group lists. -/
def groupMembers (g : Group) (s : SnapcastState) : List Client :=
  s.clients.filter (fun c => g.clients.contains c.id)

/-- The loudest shadow volume of a member list (src/main.rs lines 300-310):
maximum of the effective volumes, `0.0` for an empty list. -/
def loudestOf (app : AppState) (l : List Client) : ℚ :=
  ((l.map (effectiveVolume app)).max?).getD 0

/-- The zero-loudest loop of `set_volume` (src/main.rs lines 314-325): assign
the clamped target to every member and emit one command per member. -/
def assignLoop (target : ℚ) :
    List Client → List (String × ℚ) → List (String × ℚ) × List (String × ClientVolume)
  | [], m => (m, [])
  | c :: rest, m =>
    let m1 := mapInsert m c.id target
    let res := assignLoop target rest m1
    (res.1, (c.id, ⟨intToUsize (roundAway target), c.config.volume.muted⟩) :: res.2)

/-- The proportional-scaling loop of `set_volume` (src/main.rs lines 329-347):
read the evolving map, scale, clamp, store, and emit one command per member. -/
def scaleLoop (factor : ℚ) :
    List Client → List (String × ℚ) → List (String × ℚ) × List (String × ClientVolume)
  | [], m => (m, [])
  | c :: rest, m =>
    let current := (mapLookup m c.id).getD (c.config.volume.percent : ℚ)
    let newFractional := clamp01 (current * factor)
    let m1 := mapInsert m c.id newFractional
    let res := scaleLoop factor rest m1
    (res.1, (c.id, ⟨intToUsize (roundAway newFractional), c.config.volume.muted⟩) :: res.2)

/-- Rust `set_volume` (src/main.rs lines 275-362). Returns the updated app
state, the `client_set_volume` commands issued in order, and the Rust return
value (whether anything was sent). -/
def set_volume (volume : ℚ) (app : AppState) (s : SnapcastState) :
    AppState × List (String × ClientVolume) × Bool :=
  let target := clamp01 volume
  match app.focus with
  | none => (app, [], false)
  | some id =>
    match s.groups.find? (fun g => g.id == id) with
    | some group =>
      let gcs := groupMembers group s
      if gcs.length = 0 then (app, [], false)
      else
        let loudest := loudestOf app gcs
        if loudest = 0 then
          let res := assignLoop target gcs app.fractional_volumes
          ({ app with fractional_volumes := res.1 }, res.2, true)
        else
          let factor := target / loudest
          let res := scaleLoop factor gcs app.fractional_volumes
          ({ app with fractional_volumes := res.1 }, res.2, true)
    | none =>
      match s.clients.find? (fun c => c.id == id) with
      | some client =>
        ({ app with fractional_volumes := mapInsert app.fractional_volumes client.id target },
          [(client.id, ⟨intToUsize (roundAway target), client.config.volume.muted⟩)], true)
      | none => (app, [], false)

/-- Rust `set_volume_delta` (src/main.rs lines 364-406). -/
def set_volume_delta (delta : ℚ) (app : AppState) (s : SnapcastState) :
    AppState × List (String × ClientVolume) × Bool :=
  match app.focus with
  | none => (app, [], false)
  | some id =>
    let current? : Option ℚ :=
      match s.groups.find? (fun g => g.id == id) with
      | some group => ((groupMembers group s).map (effectiveVolume app)).max?
      | none => (s.clients.find? (fun c => c.id == id)).map (effectiveVolume app)
    match current? with
    | some current => set_volume (clamp01 (current + delta)) app s
    | none => (app, [], false)

/-! ### Keyboard handling (src/main.rs lines 681-777) -/

/-- Rust `Action`. -/
inductive Action where
  | dismiss
  | exit
  | prev
  | prevGroup
  | next
  | nextGroup
  | reduceVolume
  | reduceVolumeMore
  | raiseVolume
  | raiseVolumeMore
  | setVolumeTo (percent : Nat)
  | toggleMute
  | none
  deriving DecidableEq, Repr

/-- The key codes the core distinguishes. -/
inductive KeyCode where
  | esc
  | up
  | down
  | left
  | right
  | char (c : Char)
  | other
  deriving DecidableEq, Repr

/-- A key event: code, modifiers, and whether it is a press. -/
structure KeyEvent where
  code : KeyCode
  shift : Bool
  ctrl : Bool
  press : Bool
  deriving DecidableEq, Repr

/-- Rust `handle_key` (src/main.rs lines 706-777). -/
def handle_key (key : KeyEvent) (app : AppState) : Action :=
  if key.press = false then .none
  else if !app.connected || app.connection_stale then
    match key.code with
    | .char c =>
      if c = 'q' then .exit
      else if c = 'c' ∧ key.ctrl then .exit
      else .none
    | _ => .none
  else if !app.error_messages.isEmpty then
    match key.code with
    | .esc => .dismiss
    | _ => .none
  else
    match key.code with
    | .esc => .dismiss
    | .up => if key.shift then .prevGroup else .prev
    | .down => if key.shift then .nextGroup else .next
    | .left => if key.shift then .reduceVolumeMore else .reduceVolume
    | .right => if key.shift then .raiseVolumeMore else .raiseVolume
    | .char c =>
      if c = 'q' then .exit
      else if c = 'c' ∧ key.ctrl then .exit
      else if c = 'K' then .prevGroup
      else if c = 'J' then .nextGroup
      else if c = 'k' then .prev
      else if c = 'j' then .next
      else if c = 'H' then .reduceVolumeMore
      else if c = 'h' then .reduceVolume
      else if c = 'L' then .raiseVolumeMore
      else if c = 'l' then .raiseVolume
      else if c = '1' then .setVolumeTo 10
      else if c = '2' then .setVolumeTo 20
      else if c = '3' then .setVolumeTo 30
      else if c = '4' then .setVolumeTo 40
      else if c = '5' then .setVolumeTo 50
      else if c = '6' then .setVolumeTo 60
      else if c = '7' then .setVolumeTo 70
      else if c = '8' then .setVolumeTo 80
      else if c = '9' then .setVolumeTo 90
      else if c = '0' then .setVolumeTo 100
      else if c = 'm' then .toggleMute
      else .none
    | .other => .none

/-! ### Mute toggling and the control loop (src/main.rs lines 418-679) -/

/-- An outbound command to the connection object. -/
inductive OutboundCommand where
  | setClientVolume (id : String) (v : ClientVolume)
  | setGroupMute (id : String) (muted : Bool)
  deriving DecidableEq, Repr

/-- The `Action::ToggleMute` handler (src/main.rs lines 635-648): commands
issued and whether anything was sent. -/
def toggle_mute (app : AppState) (s : SnapcastState) : List OutboundCommand × Bool :=
  match app.focus with
  | none => ([], false)
  | some id =>
    match s.groups.find? (fun g => g.id == id) with
    | some group => ([.setGroupMute group.id (!group.muted)], true)
    | none =>
      match s.clients.find? (fun c => c.id == id) with
      | some client =>
        ([.setClientVolume client.id
            ⟨client.config.volume.percent, !client.config.volume.muted⟩], true)
      | none => ([], false)

/-- Connection status transitions delivered by the session object. -/
inductive ConnStatus where
  | connected
  | disconnected
  | reconnectFailed
  deriving DecidableEq, Repr

/-- The state the control loop threads between iterations: the app state and
whether each of the two rearmable timers is armed. -/
structure LoopState where
  app : AppState
  noReceiveArmed : Bool
  noResponseArmed : Bool
  deriving DecidableEq, Repr

/-- One event a `select!` iteration can wake on. An inbound batch is a list of
results: `Option.none` for `Ok` (reconcile) and `some msg` for an error. -/
inductive LoopEvent where
  | suspendTick (gapExceededThreshold : Bool)
  | quietFire
  | responseFire
  | status (st : ConnStatus)
  | receive (messages : List (Option String))
  | key (k : KeyEvent)
  deriving DecidableEq, Repr

/-- Outcome of one loop iteration: continue with a redraw decision, break out
of the loop, or panic. -/
inductive LoopOutcome where
  | continue (st : LoopState) (needsRedraw : Bool)
  | exit (st : LoopState)
  | panic
  deriving DecidableEq, Repr

/-- The `select!` guards (src/main.rs lines 495 and 506): a timer arm can only
fire while armed, connected and not stale. -/
def eventEnabled (ls : LoopState) (ev : LoopEvent) : Prop :=
  match ev with
  | .quietFire =>
    ls.noReceiveArmed = true ∧ ls.app.connected = true ∧ ls.app.connection_stale = false
  | .responseFire =>
    ls.noResponseArmed = true ∧ ls.app.connected = true ∧ ls.app.connection_stale = false
  | _ => True

/-- Post-iteration timer rearming (src/main.rs lines 658-667): a received batch
rearms the quiet timer and disarms the response timer; a sent command arms the
response timer. -/
def rearm (ls : LoopState) (sent received : Bool) : LoopState :=
  let ls1 :=
    if received then { ls with noReceiveArmed := true, noResponseArmed := false } else ls
  if sent then { ls1 with noResponseArmed := true } else ls1

/-- Fold a navigation result back into a loop outcome (src/main.rs lines
569-592): a changed focus replaces the app state and forces a redraw. -/
def navOutcome (ls : LoopState) (r : MoveResult) : LoopOutcome :=
  match r with
  | .panic => .panic
  | .noChange => .continue ls false
  | .changed app1 => .continue { ls with app := app1 } true

/-- A volume action result folded back into a loop outcome: update the app
state and arm the response timer when something was sent. -/
def volumeOutcome (ls : LoopState) (res : AppState × List (String × ClientVolume) × Bool) :
    LoopOutcome :=
  .continue (rearm { ls with app := res.1 } res.2.2 false) false

/-- The message-batch fold (src/main.rs lines 540-551). -/
def receiveFold (s : SnapcastState) (messages : List (Option String)) :
    AppState × Bool → AppState × Bool :=
  fun start =>
    messages.foldl
      (fun acc msg =>
        match msg with
        | Option.none => (update_fractional_volumes acc.1 s, true)
        | Option.some err => ({ acc.1 with error_messages := acc.1.error_messages ++ [err] }, true))
      start

/-- One iteration of the control loop (src/main.rs lines 473-672), given the
event the `select!` woke on. -/
def loop_step (ls : LoopState) (s : SnapcastState) (ev : LoopEvent) : LoopOutcome :=
  match ev with
  | .suspendTick gap => .continue (rearm ls gap false) false
  | .quietFire => .continue (rearm { ls with noReceiveArmed := false } true false) false
  | .responseFire =>
    .continue (rearm { ls with app := { ls.app with connection_stale := true } } false false) true
  | .status st =>
    match st with
    | .connected =>
      .continue
        (rearm { ls with app := { ls.app with connected := true, reconnect_attempts := 0 } }
          false false) true
    | .disconnected =>
      .continue
        (rearm { ls with app := { ls.app with connected := false, reconnect_attempts := 1 } }
          false false) true
    | .reconnectFailed =>
      .continue
        (rearm
          { ls with app := { ls.app with reconnect_attempts := ls.app.reconnect_attempts + 1 } }
          false false) true
  | .receive messages =>
    let start :=
      if ls.app.connection_stale then ({ ls.app with connection_stale := false }, true)
      else (ls.app, false)
    let res := receiveFold s messages start
    .continue (rearm { ls with app := res.1 } false true) res.2
  | .key k =>
    match handle_key k ls.app with
    | .exit => .exit ls
    | .dismiss =>
      if ls.app.error_messages.isEmpty then .exit ls
      else .continue { ls with app := { ls.app with error_messages := [] } } true
    | .prev => navOutcome ls (move_focus (-1) ls.app s)
    | .next => navOutcome ls (move_focus 1 ls.app s)
    | .prevGroup => navOutcome ls (move_focus_group (-1) ls.app s)
    | .nextGroup => navOutcome ls (move_focus_group 1 ls.app s)
    | .reduceVolume => volumeOutcome ls (set_volume_delta (-1) ls.app s)
    | .reduceVolumeMore => volumeOutcome ls (set_volume_delta (-5) ls.app s)
    | .raiseVolume => volumeOutcome ls (set_volume_delta 1 ls.app s)
    | .raiseVolumeMore => volumeOutcome ls (set_volume_delta 5 ls.app s)
    | .setVolumeTo p => volumeOutcome ls (set_volume (p : ℚ) ls.app s)
    | .toggleMute => .continue (rearm ls (toggle_mute ls.app s).2 false) false
    | .none => .continue ls false

/-! ### Range predicates for the volume invariant -/

/-- Every value stored in the fractional-volume map lies in `[0, 100]`. -/
def mapInRange (m : List (String × ℚ)) : Prop :=
  ∀ k v, mapLookup m k = some v → 0 ≤ v ∧ v ≤ 100

/-- Every server-reported integer percent lies in `[0, 100]`. -/
def clientsInRange (s : SnapcastState) : Prop :=
  ∀ c ∈ s.clients, c.config.volume.percent ≤ 100

/-! ### Concrete fixtures used by witnesses and counterexamples -/

/-- A host with an empty name. -/
def hostEmpty : ClientHost := ⟨""⟩

/-- A client named alpha at 40 percent. -/
def clientA : Client := ⟨"c1", hostEmpty, ⟨"alpha", ⟨40, false⟩⟩⟩

/-- A client named beta at 20 percent. -/
def clientB : Client := ⟨"c2", hostEmpty, ⟨"beta", ⟨20, false⟩⟩⟩

/-- A single group holding both clients. -/
def groupG : Group := ⟨"g1", "g", false, ["c1", "c2"]⟩

/-- A state with one group of two clients. -/
def stOneGroup : SnapcastState := ⟨[groupG], [clientA, clientB]⟩

/-- Group with name a holding client c1. -/
def groupOne : Group := ⟨"ga", "a", false, ["c1"]⟩

/-- Group with name b holding client c2. -/
def groupTwo : Group := ⟨"gb", "b", false, ["c2"]⟩

/-- A state with two singleton groups. -/
def stTwoGroups : SnapcastState := ⟨[groupOne, groupTwo], [clientA, clientB]⟩

/-- The empty server state: no groups, no clients. -/
def stEmpty : SnapcastState := ⟨[], []⟩

/-- An app state focused on the endpoint c2. -/
def appFocusC2 : AppState := { AppState.new with focus := some "c2" }

/-- An app state focused on the group g1. -/
def appFocusG : AppState := { AppState.new with focus := some "g1" }

/-- A connected, healthy app state with no focus. -/
def appConnected : AppState := { AppState.new with connected := true }

/-- A loop state for the connected app with the quiet timer armed. -/
def lsConnected : LoopState := ⟨appConnected, true, false⟩

/-- Press of the Escape key. -/
def escKey : KeyEvent := ⟨.esc, false, false, true⟩

/-- Press of the Down arrow key without modifiers. -/
def downKey : KeyEvent := ⟨.down, false, false, true⟩

/-- An app state whose shadow map drifted: 39.5 still rounds to the reported
40, but 10 disagrees with the reported 20. -/
def appDrift : AppState :=
  { AppState.new with fractional_volumes := [("c1", 39.5), ("c2", 10)] }

/-- A silenced copy of clientA (volume 0). -/
def clientA0 : Client := ⟨"c1", hostEmpty, ⟨"alpha", ⟨0, false⟩⟩⟩

/-- A silenced copy of clientB (volume 0). -/
def clientB0 : Client := ⟨"c2", hostEmpty, ⟨"beta", ⟨0, false⟩⟩⟩

/-- The one-group state with both members silent. -/
def stAllZero : SnapcastState := ⟨[groupG], [clientA0, clientB0]⟩

/-! ### Theorems -/

/-- C1: the spec claims `move_group(-1)` from an Endpoint yields the parent
group at index `p` and `move_group(+1)` yields the group at index
`min(p+1, len-1)`, in particular a valid group for an Endpoint in the last
group. On the code, the backward jump does land on the parent group, but the
forward jump from an Endpoint of the last group clamps the target index to
`len` and then indexes out of bounds: the call panics instead of returning the
last group. -/
theorem c1_group_jump_from_child_evaluated :
    move_focus_group (-1) appFocusC2 stTwoGroups
        = .changed { appFocusC2 with focus := some "gb" }
      ∧ move_focus_group 1 appFocusC2 stTwoGroups = .panic := by
  constructor
  · rfl
  · rfl

/-- C2: the spec claims no core operation ever terminates the process, for
every state including one with no groups and no endpoints. On the code, both
navigation operations panic on the empty state (the eagerly computed fallback
clamps with `min > max` and indexes an empty vector), so a single Down key
press on an empty server terminates the process. -/
theorem c2_navigation_panics_on_empty_state :
    move_focus 1 AppState.new stEmpty = .panic
      ∧ move_focus (-1) AppState.new stEmpty = .panic
      ∧ move_focus_group 1 AppState.new stEmpty = .panic
      ∧ move_focus_group (-1) AppState.new stEmpty = .panic
      ∧ loop_step lsConnected stEmpty (.key downKey) = .panic := by
  exact ⟨rfl, rfl, rfl, rfl, rfl⟩

/-- C7 counterexample: the claim says the dismiss action with an empty Error
Queue is a no-op and the control loop keeps running. On the code, Escape in the
healthy state maps to `Action::Dismiss`, and an empty queue makes the handler
`break`: the loop exits instead of continuing. -/
theorem c7_dismiss_empty_queue_exits :
    handle_key escKey appConnected = .dismiss
      ∧ loop_step lsConnected stEmpty (.key escKey) = .exit lsConnected
      ∧ ∀ st r, loop_step lsConnected stEmpty (.key escKey) ≠ .continue st r := by
  refine ⟨rfl, rfl, ?_⟩
  intro st r h
  simp [loop_step, handle_key, lsConnected, appConnected, AppState.new, escKey] at h

/-- The message fold never touches the staleness flag, and it can only turn the
redraw flag on, never off. -/
theorem receiveFold_stale_redraw (s : SnapcastState) (messages : List (Option String)) :
    ∀ start : AppState × Bool,
      (receiveFold s messages start).1.connection_stale = start.1.connection_stale
        ∧ ((receiveFold s messages start).2 = start.2 ∨ (receiveFold s messages start).2 = true) := by
  induction messages with
  | nil => intro start; exact ⟨rfl, Or.inl rfl⟩
  | cons msg rest ih =>
    intro start
    match msg with
    | Option.none =>
      have h := ih (update_fractional_volumes start.1 s, true)
      refine ⟨?_, ?_⟩
      · simpa [receiveFold, update_fractional_volumes] using h.1
      · have := h.2
        simp only [receiveFold] at this ⊢
        tauto
    | Option.some err =>
      have h := ih ({ start.1 with error_messages := start.1.error_messages ++ [err] }, true)
      refine ⟨?_, ?_⟩
      · simpa [receiveFold] using h.1
      · have := h.2
        simp only [receiveFold] at this ⊢
        tauto

/-- C7 amended: with a nonempty Error Queue the dismiss action clears the whole
queue in bulk and the loop keeps running with a redraw, and while the queue is
nonempty the Escape key is consumed as dismiss rather than acting as quit; with
an empty queue the dismiss action exits the loop (it acts as quit would). -/
theorem c7_dismiss_clears_queue_or_exits (ls : LoopState) (s : SnapcastState) (k : KeyEvent)
    (hk : handle_key k ls.app = .dismiss) :
    (ls.app.error_messages = [] → loop_step ls s (.key k) = .exit ls)
      ∧ (ls.app.error_messages ≠ [] →
          loop_step ls s (.key k)
            = .continue { ls with app := { ls.app with error_messages := [] } } true)
      ∧ (∀ app1 : AppState, app1.connected = true → app1.connection_stale = false →
          app1.error_messages ≠ [] → handle_key ⟨.esc, false, false, true⟩ app1 = .dismiss) := by
  refine ⟨?_, ?_, ?_⟩
  · intro he
    simp [loop_step, hk, he]
  · intro he
    simp [loop_step, hk, List.isEmpty_iff, he]
  · intro app1 hc hs1 he
    simp [handle_key, hc, hs1, List.isEmpty_iff, he]

/-- C7 witness: on a concrete loop state with one queued error, Escape maps to
dismiss, and the iteration clears the queue and keeps the loop running. -/
theorem c7_dismiss_witness :
    loop_step ⟨{ appConnected with error_messages := ["boom"] }, true, false⟩ stEmpty (.key escKey)
        = .continue
            ⟨{ { appConnected with error_messages := ["boom"] } with error_messages := [] },
              true, false⟩ true
      ∧ loop_step lsConnected stEmpty (.key escKey) = .exit lsConnected := by
  constructor
  · exact (c7_dismiss_clears_queue_or_exits
      ⟨{ appConnected with error_messages := ["boom"] }, true, false⟩ stEmpty escKey rfl).2.1
      (by simp [appConnected, AppState.new])
  · exact (c7_dismiss_clears_queue_or_exits lsConnected stEmpty escKey rfl).1 rfl

/-- C8: while connected and not stale, the armed response timer firing sets the
stale flag and requires a redraw; any inbound message batch disarms the
response timer, rearms the quiet timer, and, if the state was stale, clears the
stale flag and requires a redraw. -/
theorem c8_response_timer_and_receive (ls : LoopState) (s : SnapcastState) :
    (eventEnabled ls .responseFire →
        loop_step ls s .responseFire
          = .continue { ls with app := { ls.app with connection_stale := true } } true)
      ∧ ∀ messages : List (Option String), ∃ app1 r,
          loop_step ls s (.receive messages) = .continue ⟨app1, true, false⟩ r
            ∧ app1.connection_stale = false
            ∧ (ls.app.connection_stale = true → r = true) := by
  constructor
  · intro _
    simp [loop_step, rearm]
  · intro messages
    by_cases h : ls.app.connection_stale = true
    · refine ⟨(receiveFold s messages ({ ls.app with connection_stale := false }, true)).1,
        (receiveFold s messages ({ ls.app with connection_stale := false }, true)).2, ?_, ?_, ?_⟩
      · simp [loop_step, h, rearm]
      · simpa using
          (receiveFold_stale_redraw s messages ({ ls.app with connection_stale := false }, true)).1
      · intro _
        rcases (receiveFold_stale_redraw s messages
            ({ ls.app with connection_stale := false }, true)).2 with h1 | h1 <;> simp [h1]
    · have h0 : ls.app.connection_stale = false := by simpa using h
      refine ⟨(receiveFold s messages (ls.app, false)).1,
        (receiveFold s messages (ls.app, false)).2, ?_, ?_, ?_⟩
      · simp [loop_step, h0, rearm]
      · simpa [h0] using (receiveFold_stale_redraw s messages (ls.app, false)).1
      · intro hcontra
        rw [h0] at hcontra
        exact absurd hcontra (by simp)

/-- C8 witness: from a concrete stale loop state, a one-message batch clears
the stale flag, rearms the quiet timer, disarms the response timer and forces a
redraw; from a concrete healthy armed state, the response timer firing marks
the connection stale with a redraw. -/
theorem c8_watchdog_witness :
    (∃ app1 r,
        loop_step ⟨{ appConnected with connection_stale := true }, false, true⟩ stEmpty
            (.receive [Option.none])
          = .continue ⟨app1, true, false⟩ r
          ∧ app1.connection_stale = false ∧ r = true)
      ∧ loop_step ⟨appConnected, true, true⟩ stEmpty .responseFire
        = .continue ⟨{ appConnected with connection_stale := true }, true, true⟩ true := by
  constructor
  · obtain ⟨app1, r, h1, h2, h3⟩ :=
      (c8_response_timer_and_receive
        ⟨{ appConnected with connection_stale := true }, false, true⟩ stEmpty).2 [Option.none]
    exact ⟨app1, r, h1, h2, h3 rfl⟩
  · exact (c8_response_timer_and_receive ⟨appConnected, true, true⟩ stEmpty).1 ⟨rfl, rfl, rfl⟩

/-- Lookup after insert: the inserted key reads the new value, every other key
is untouched. -/
theorem mapLookup_insert (m : List (String × ℚ)) (k k₁ : String) (v : ℚ) :
    mapLookup (mapInsert m k v) k₁ = if k = k₁ then some v else mapLookup m k₁ := by
  by_cases hk : k = k₁
  · subst hk
    simp [mapLookup, mapInsert]
  · have hfilter : ∀ m₁ : List (String × ℚ),
        (m₁.filter (fun p => !(p.1 == k))).find? (fun p => p.1 == k₁)
          = m₁.find? (fun p => p.1 == k₁) := by
      intro m₁
      induction m₁ with
      | nil => rfl
      | cons a rest ih =>
        by_cases ha : a.1 = k
        · have h1 : (a.1 == k) = true := by simp [ha]
          have h2 : (a.1 == k₁) = false := by simp [ha, hk]
          simp [List.filter_cons, h1, List.find?, h2, ih]
        · have h1 : (a.1 == k) = false := by simp [ha]
          by_cases ha₂ : a.1 = k₁
          · have h2 : (a.1 == k₁) = true := by simp [ha₂]
            simp [List.filter_cons, h1, List.find?, h2]
          · have h2 : (a.1 == k₁) = false := by simp [ha₂]
            simp [List.filter_cons, h1, List.find?, h2, ih]
    simp [mapLookup, mapInsert, Ne.symm hk, hk, hfilter]

/-- The reconciliation loop: with pairwise distinct client ids, each client's
entry after the loop follows the drift rule computed from the initial map, and
other keys are untouched. -/
theorem updateLoop_lookup (l : List Client) :
    ∀ m : List (String × ℚ), (l.map Client.id).Nodup →
      (∀ c ∈ l, mapLookup (updateLoop l m) c.id
          = if c.config.volume.percent ≠ intToUsize (roundAway ((mapLookup m c.id).getD (-1)))
            then some (c.config.volume.percent : ℚ) else mapLookup m c.id)
        ∧ ∀ k, (∀ c ∈ l, c.id ≠ k) → mapLookup (updateLoop l m) k = mapLookup m k := by
  induction l with
  | nil => exact fun m _ => ⟨fun c hc => absurd hc (List.not_mem_nil c), fun k _ => rfl⟩
  | cons c rest ih =>
    intro m hnodup
    rw [List.map_cons, List.nodup_cons] at hnodup
    obtain ⟨hnotin, hnd⟩ := hnodup
    have hne : ∀ c₁ ∈ rest, c₁.id ≠ c.id := by
      intro c₁ hc₁ h
      exact hnotin (h ▸ List.mem_map_of_mem Client.id hc₁)
    by_cases hc : c.config.volume.percent = intToUsize (roundAway ((mapLookup m c.id).getD (-1)))
    · have hstep : updateLoop (c :: rest) m = updateLoop rest m := by
        simp [updateLoop, hc]
      obtain ⟨ih₁, ih₂⟩ := ih m hnd
      refine ⟨?_, ?_⟩
      · intro c₁ hc₁
        rcases List.mem_cons.mp hc₁ with rfl | hmem
        · rw [hstep, ih₂ c₁.id (fun c₂ h₂ => hne c₂ h₂)]
          simp [hc]
        · rw [hstep]
          exact ih₁ c₁ hmem
      · intro k hk
        rw [hstep]
        exact ih₂ k (fun c₂ h₂ => hk c₂ (List.mem_cons_of_mem c h₂))
    · have hstep :
          updateLoop (c :: rest) m
            = updateLoop rest (mapInsert m c.id (c.config.volume.percent : ℚ)) := by
        simp [updateLoop, hc]
      obtain ⟨ih₁, ih₂⟩ := ih (mapInsert m c.id (c.config.volume.percent : ℚ)) hnd
      have hat : ∀ c₁ ∈ rest,
          mapLookup (mapInsert m c.id (c.config.volume.percent : ℚ)) c₁.id
            = mapLookup m c₁.id := by
        intro c₁ hc₁
        rw [mapLookup_insert, if_neg (fun h => hne c₁ hc₁ h.symm)]
      refine ⟨?_, ?_⟩
      · intro c₁ hc₁
        rcases List.mem_cons.mp hc₁ with rfl | hmem
        · rw [hstep, ih₂ c₁.id (fun c₂ h₂ => hne c₂ h₂), mapLookup_insert, if_pos rfl]
          simp [hc]
        · rw [hstep]
          have h₁ := ih₁ c₁ hmem
          rwa [hat c₁ hmem] at h₁
      · intro k hk
        rw [hstep, ih₂ k (fun c₂ h₂ => hk c₂ (List.mem_cons_of_mem c h₂)),
          mapLookup_insert, if_neg (hk c (List.mem_cons_self c rest))]

/-- C5: after reconciliation, every Endpoint of the live state whose shadow
entry's rounded value differs from the server-reported integer percent has its
shadow overwritten with exactly that integer (as a rational), and a shadow
entry whose rounded value already agrees is left unchanged. -/
theorem c5_reconcile_overrides_drift (app : AppState) (s : SnapcastState)
    (hnodup : (s.clients.map Client.id).Nodup) :
    ∀ c ∈ s.clients, ∀ v : ℚ, mapLookup app.fractional_volumes c.id = some v →
      (intToUsize (roundAway v) ≠ c.config.volume.percent →
          mapLookup (update_fractional_volumes app s).fractional_volumes c.id
            = some (c.config.volume.percent : ℚ))
        ∧ (intToUsize (roundAway v) = c.config.volume.percent →
            mapLookup (update_fractional_volumes app s).fractional_volumes c.id = some v) := by
  intro c hc v hv
  have h := (updateLoop_lookup s.clients app.fractional_volumes hnodup).1 c hc
  rw [hv] at h
  simp only [Option.getD_some] at h
  constructor
  · intro hne
    rw [update_fractional_volumes]
    simpa [Ne.symm hne] using h
  · intro heq
    rw [update_fractional_volumes]
    simpa [heq, hv] using h

/-- C5 witness: on a concrete state, the entry 39.5 (which rounds to the
reported 40) is kept, while an entry 10 against a reported 20 is overwritten
with 20. -/
theorem c5_reconcile_witness :
    mapLookup (update_fractional_volumes appDrift stOneGroup).fractional_volumes "c1"
        = some 39.5
      ∧ mapLookup (update_fractional_volumes appDrift stOneGroup).fractional_volumes "c2"
        = some 20 := by
  have hlook1 : mapLookup appDrift.fractional_volumes clientA.id = some 39.5 := by
    norm_num [appDrift, AppState.new, mapLookup, List.find?, clientA]
  have hbeq : (("c1" : String) == "c2") = false := by decide
  have hlook2 : mapLookup appDrift.fractional_volumes clientB.id = some 10 := by
    norm_num [appDrift, AppState.new, mapLookup, List.find?, clientB, hbeq]
  have hr1 : roundAway 39.5 = 40 := by norm_num [roundAway]
  have hr2 : roundAway 10 = 10 := by norm_num [roundAway]
  have hround1 : intToUsize (roundAway 39.5) = clientA.config.volume.percent := by
    rw [hr1]; decide
  have hround2 : intToUsize (roundAway 10) ≠ clientB.config.volume.percent := by
    rw [hr2]; decide
  constructor
  · exact (c5_reconcile_overrides_drift appDrift stOneGroup (by decide) clientA (by decide)
      39.5 hlook1).2 hround1
  · exact (c5_reconcile_overrides_drift appDrift stOneGroup (by decide) clientB (by decide)
      10 hlook2).1 hround2

/-- The clamp to `[0, 100]` really lands in `[0, 100]`. -/
theorem clamp01_mem (x : ℚ) : 0 ≤ clamp01 x ∧ clamp01 x ≤ 100 :=
  ⟨le_max_left 0 (min x 100), max_le (by norm_num) (min_le_right x 100)⟩

/-- Inserting an in-range value preserves the range invariant. -/
theorem mapInRange_insert {m : List (String × ℚ)} (hm : mapInRange m) {v : ℚ} (k : String)
    (h0 : 0 ≤ v) (h1 : v ≤ 100) : mapInRange (mapInsert m k v) := by
  intro k₁ v₁ h
  rw [mapLookup_insert] at h
  by_cases hk : k = k₁
  · rw [if_pos hk] at h
    cases h
    exact ⟨h0, h1⟩
  · rw [if_neg hk] at h
    exact hm k₁ v₁ h

/-- The proportional-scaling loop only stores clamped values. -/
theorem scaleLoop_range (factor : ℚ) :
    ∀ (l : List Client) (m : List (String × ℚ)), mapInRange m →
      mapInRange (scaleLoop factor l m).1 := by
  intro l
  induction l with
  | nil => exact fun m hm => hm
  | cons c rest ih =>
    intro m hm
    simp only [scaleLoop]
    exact ih _ (mapInRange_insert hm c.id (clamp01_mem _).1 (clamp01_mem _).2)

/-- The zero-loudest loop only stores the clamped target. -/
theorem assignLoop_range {target : ℚ} (h0 : 0 ≤ target) (h1 : target ≤ 100) :
    ∀ (l : List Client) (m : List (String × ℚ)), mapInRange m →
      mapInRange (assignLoop target l m).1 := by
  intro l
  induction l with
  | nil => exact fun m hm => hm
  | cons c rest ih =>
    intro m hm
    simp only [assignLoop]
    exact ih _ (mapInRange_insert hm c.id h0 h1)

/-- The reconciliation loop only stores server-reported percents. -/
theorem updateLoop_range :
    ∀ (l : List Client) (m : List (String × ℚ)),
      (∀ c ∈ l, c.config.volume.percent ≤ 100) → mapInRange m →
      mapInRange (updateLoop l m) := by
  intro l
  induction l with
  | nil => exact fun m _ hm => hm
  | cons c rest ih =>
    intro m hl hm
    simp only [updateLoop]
    split
    · refine ih _ (fun c₁ h₁ => hl c₁ (List.mem_cons_of_mem c h₁)) ?_
      refine mapInRange_insert hm c.id (by positivity) ?_
      exact_mod_cast hl c (List.mem_cons_self c rest)
    · exact ih _ (fun c₁ h₁ => hl c₁ (List.mem_cons_of_mem c h₁)) hm

/-- Every map produced by `set_volume` satisfies the range invariant. -/
theorem set_volume_range (T : ℚ) (app : AppState) (s : SnapcastState)
    (hm : mapInRange app.fractional_volumes) :
    mapInRange (set_volume T app s).1.fractional_volumes := by
  rcases hfocus : app.focus with _ | id
  · simpa [set_volume, hfocus] using hm
  · rcases hg : s.groups.find? (fun g => g.id == id) with _ | group
    · rcases hc : s.clients.find? (fun c => c.id == id) with _ | client
      · simpa [set_volume, hfocus, hg, hc] using hm
      · simpa [set_volume, hfocus, hg, hc] using
          mapInRange_insert hm client.id (clamp01_mem T).1 (clamp01_mem T).2
    · by_cases hlen : (groupMembers group s).length = 0
      · simpa [set_volume, hfocus, hg, hlen] using hm
      · by_cases hloud : loudestOf app (groupMembers group s) = 0
        · simpa [set_volume, hfocus, hg, hlen, hloud] using
            assignLoop_range (clamp01_mem T).1 (clamp01_mem T).2 (groupMembers group s)
              app.fractional_volumes hm
        · simpa [set_volume, hfocus, hg, hlen, hloud] using
            scaleLoop_range (clamp01 T / loudestOf app (groupMembers group s))
              (groupMembers group s) app.fractional_volumes hm

/-- C10: provided the map already satisfies the range invariant and every
server-reported percent is in `[0, 100]`, each of the three operations that
write the Fractional Volume Map — `set_volume`, `set_volume_delta` and
reconciliation — leaves every stored value in `[0, 100]`. -/
theorem c10_fractional_volumes_in_range (app : AppState) (s : SnapcastState)
    (hm : mapInRange app.fractional_volumes) (hs : clientsInRange s) :
    (∀ T : ℚ, mapInRange (set_volume T app s).1.fractional_volumes)
      ∧ (∀ d : ℚ, mapInRange (set_volume_delta d app s).1.fractional_volumes)
      ∧ mapInRange (update_fractional_volumes app s).fractional_volumes := by
  refine ⟨fun T => set_volume_range T app s hm, fun d => ?_, ?_⟩
  · rcases hfocus : app.focus with _ | id
    · simpa [set_volume_delta, hfocus] using hm
    · simp only [set_volume_delta, hfocus]
      split
      · exact set_volume_range _ app s hm
      · exact hm
  · exact updateLoop_range s.clients app.fractional_volumes hs hm

/-- C10 witness: from the empty map and a concrete in-range state, an absolute
set, a relative set and a reconciliation all keep every stored value in
range. -/
theorem c10_range_witness :
    mapInRange (set_volume 60 appFocusG stOneGroup).1.fractional_volumes
      ∧ mapInRange (set_volume_delta 5 appFocusG stOneGroup).1.fractional_volumes
      ∧ mapInRange (update_fractional_volumes appFocusG stOneGroup).fractional_volumes := by
  have hm : mapInRange appFocusG.fractional_volumes := by
    intro k v h
    simp [appFocusG, AppState.new, mapLookup] at h
  have hs : clientsInRange stOneGroup := by
    unfold clientsInRange
    decide
  obtain ⟨h1, h2, h3⟩ := c10_fractional_volumes_in_range appFocusG stOneGroup hm hs
  exact ⟨h1 60, h2 5, h3⟩

/-- The embedded Rust string order is total. -/
theorem listLeB_total (as : List Char) : ∀ bs, listLeB as bs = true ∨ listLeB bs as = true := by
  induction as with
  | nil => intro bs; left; rfl
  | cons a as ih =>
    intro bs
    cases bs with
    | nil => right; rfl
    | cons b bs =>
      rcases Nat.lt_trichotomy a.toNat b.toNat with h | h | h
      · left; simp [listLeB, h]
      · have h2 : ¬a.toNat < b.toNat := by omega
        have h3 : ¬b.toNat < a.toNat := by omega
        rcases ih bs with h4 | h4
        · left; simp [listLeB, h2, h3, h4]
        · right; simp [listLeB, h2, h3, h4]
      · right; simp [listLeB, h]

/-- The embedded Rust string order is transitive. -/
theorem listLeB_trans : ∀ {as bs cs : List Char},
    listLeB as bs = true → listLeB bs cs = true → listLeB as cs = true := by
  intro as
  induction as with
  | nil => intro bs cs _ _; rfl
  | cons a as ih =>
    intro bs cs h1 h2
    cases bs with
    | nil => simp [listLeB] at h1
    | cons b bs =>
      cases cs with
      | nil => simp [listLeB] at h2
      | cons c cs =>
        by_cases hab : a.toNat < b.toNat
        · by_cases hbc : b.toNat < c.toNat
          · have hac : a.toNat < c.toNat := lt_trans hab hbc
            simp [listLeB, hac]
          · by_cases hcb : c.toNat < b.toNat
            · simp [listLeB, hbc, hcb] at h2
            · have hac : a.toNat < c.toNat := by omega
              simp [listLeB, hac]
        · by_cases hba : b.toNat < a.toNat
          · simp [listLeB, hab, hba] at h1
          · simp only [listLeB, if_neg hab, if_neg hba] at h1
            by_cases hbc : b.toNat < c.toNat
            · have hac : a.toNat < c.toNat := by omega
              simp [listLeB, hac]
            · by_cases hcb : c.toNat < b.toNat
              · simp [listLeB, hbc, hcb] at h2
              · simp only [listLeB, if_neg hbc, if_neg hcb] at h2
                have hac : ¬a.toNat < c.toNat := by omega
                have hca : ¬c.toNat < a.toNat := by omega
                simp only [listLeB, if_neg hac, if_neg hca]
                exact ih h1 h2

/-- C6: `get_all_focusable_ids` lists, group block by group block, the group id
followed by its member Endpoint ids; the group blocks are in ascending order of
displayed group name, the groups listed are exactly the state's groups, and
within each block the members are exactly the group's resolvable Endpoints in
ascending order of their own displayed name. -/
theorem c6_flatten_sorted_interleaving (s : SnapcastState) :
    get_all_focusable_ids s
        = (sort_groups s).flatMap (fun g => g.id :: (sort_clients g s).map Client.id)
      ∧ (sort_groups s).Pairwise groupLe
      ∧ List.Perm (sort_groups s) s.groups
      ∧ (∀ g : Group, (sort_clients g s).Pairwise clientLe)
      ∧ ∀ g : Group, List.Perm (sort_clients g s)
          (g.clients.filterMap (fun id => s.clients.find? (fun c => c.id == id))) := by
  haveI : IsTotal Group groupLe := ⟨fun a b => listLeB_total _ _⟩
  haveI : IsTrans Group groupLe := ⟨fun _ _ _ h1 h2 => listLeB_trans h1 h2⟩
  haveI : IsTotal Client clientLe := ⟨fun a b => listLeB_total _ _⟩
  haveI : IsTrans Client clientLe := ⟨fun _ _ _ h1 h2 => listLeB_trans h1 h2⟩
  refine ⟨rfl, ?_, ?_, fun g => ?_, fun g => ?_⟩
  · exact List.sorted_insertionSort groupLe s.groups
  · exact List.perm_insertionSort groupLe s.groups
  · exact List.sorted_insertionSort clientLe _
  · exact List.perm_insertionSort clientLe _

/-- The seed of a max fold is below the result. -/
theorem le_foldl_max (t : List ℚ) : ∀ a : ℚ, a ≤ t.foldl max a := by
  induction t with
  | nil => exact fun a => le_refl a
  | cons b t ih =>
    intro a
    calc a ≤ max a b := le_max_left a b
    _ ≤ t.foldl max (max a b) := ih (max a b)

/-- Every element of the folded list is below the max fold. -/
theorem mem_le_foldl_max (t : List ℚ) : ∀ (a x : ℚ), x ∈ t → x ≤ t.foldl max a := by
  induction t with
  | nil => exact fun a x hx => absurd hx (List.not_mem_nil x)
  | cons b t ih =>
    intro a x hx
    rcases List.mem_cons.mp hx with rfl | hmem
    · calc x ≤ max a x := le_max_right a x
      _ ≤ t.foldl max (max a x) := le_foldl_max t (max a x)
    · exact ih (max a b) x hmem

/-- Every member of a list is below its `max?`, whatever the default. -/
theorem le_max?_getD {l : List ℚ} {x : ℚ} (hx : x ∈ l) (d : ℚ) : x ≤ (l.max?).getD d := by
  cases l with
  | nil => exact absurd hx (List.not_mem_nil x)
  | cons a t =>
    have h : (a :: t).max? = some (t.foldl max a) := rfl
    rw [h, Option.getD_some]
    rcases List.mem_cons.mp hx with rfl | hmem
    · exact le_foldl_max t x
    · exact mem_le_foldl_max t a x hmem

/-- A max fold over values all below the seed returns the seed. -/
theorem foldl_max_of_all_le (t : List ℚ) : ∀ a, (∀ x ∈ t, x ≤ a) → t.foldl max a = a := by
  induction t with
  | nil => exact fun a _ => rfl
  | cons b t ih =>
    intro a h
    have hb : max a b = a := max_eq_left (h b (List.mem_cons_self b t))
    rw [List.foldl_cons, hb]
    exact ih a (fun x hx => h x (List.mem_cons_of_mem b hx))

/-- Scaling every element by a nonnegative factor scales the max fold. -/
theorem foldl_max_map_mul (k : ℚ) (hk : 0 ≤ k) (t : List ℚ) :
    ∀ a : ℚ, (t.map (fun y => y * k)).foldl max (a * k) = t.foldl max a * k := by
  induction t with
  | nil => exact fun a => rfl
  | cons b t ih =>
    intro a
    rw [List.map_cons, List.foldl_cons, List.foldl_cons, ← max_mul_of_nonneg a b hk, ih (max a b)]

/-- Scaling every element by a nonnegative factor scales `max?`. -/
theorem max?_map_mul (k : ℚ) (hk : 0 ≤ k) (l : List ℚ) :
    (l.map (fun y => y * k)).max? = l.max?.map (fun y => y * k) := by
  cases l with
  | nil => rfl
  | cons a t =>
    have h₁ : ((a * k) :: t.map (fun y => y * k)).max?
        = some ((t.map (fun y => y * k)).foldl max (a * k)) := rfl
    have h₂ : (a :: t).max? = some (t.foldl max a) := rfl
    rw [List.map_cons, h₁, h₂, foldl_max_map_mul k hk t a]
    rfl

/-- The integer percent put on the wire differs from the exact fractional value
by at most one (in fact at most a half). -/
theorem roundAway_cast_abs_le (x : ℚ) (hx : 0 ≤ x) :
    |((intToUsize (roundAway x) : ℚ)) - x| ≤ 1 := by
  have h0 : roundAway x = ⌊x + 1 / 2⌋ := if_pos hx
  have hfl : (0 : ℤ) ≤ ⌊x + 1 / 2⌋ := Int.floor_nonneg.mpr (by linarith)
  have hcast : ((intToUsize (roundAway x) : ℚ)) = ((⌊x + 1 / 2⌋ : ℤ) : ℚ) := by
    rw [h0, intToUsize]
    exact_mod_cast congrArg (Int.cast : ℤ → ℚ) (Int.toNat_of_nonneg hfl)
  rw [hcast]
  have h1 : ((⌊x + 1 / 2⌋ : ℤ) : ℚ) ≤ x + 1 / 2 := Int.floor_le (x + 1 / 2)
  have h2 : x + 1 / 2 - 1 < ((⌊x + 1 / 2⌋ : ℤ) : ℚ) := Int.sub_one_lt_floor (x + 1 / 2)
  rw [abs_le]
  constructor <;> linarith

/-- The proportional-scaling loop: with pairwise distinct member ids, each
member's entry holds its clamped scaled value computed from the initial map,
other keys are untouched, and the command list carries one rounded command per
member in order. -/
theorem scaleLoop_spec (factor : ℚ) (l : List Client) :
    ∀ m : List (String × ℚ), (l.map Client.id).Nodup →
      (∀ c ∈ l, mapLookup (scaleLoop factor l m).1 c.id
          = some (clamp01 (((mapLookup m c.id).getD (c.config.volume.percent : ℚ)) * factor)))
        ∧ (∀ k, (∀ c ∈ l, c.id ≠ k) → mapLookup (scaleLoop factor l m).1 k = mapLookup m k)
        ∧ (scaleLoop factor l m).2
            = l.map (fun c =>
                (c.id, ⟨intToUsize (roundAway
                    (clamp01 (((mapLookup m c.id).getD (c.config.volume.percent : ℚ)) * factor))),
                  c.config.volume.muted⟩)) := by
  induction l with
  | nil => exact fun m _ => ⟨fun c hc => absurd hc (List.not_mem_nil c), fun k _ => rfl, rfl⟩
  | cons c rest ih =>
    intro m hnodup
    rw [List.map_cons, List.nodup_cons] at hnodup
    obtain ⟨hnotin, hnd⟩ := hnodup
    have hne : ∀ c₁ ∈ rest, c₁.id ≠ c.id := by
      intro c₁ hc₁ h
      exact hnotin (h ▸ List.mem_map_of_mem Client.id hc₁)
    have hstep1 : (scaleLoop factor (c :: rest) m).1
        = (scaleLoop factor rest (mapInsert m c.id
            (clamp01 (((mapLookup m c.id).getD (c.config.volume.percent : ℚ)) * factor)))).1 := rfl
    have hstep2 : (scaleLoop factor (c :: rest) m).2
        = (c.id, ⟨intToUsize (roundAway
              (clamp01 (((mapLookup m c.id).getD (c.config.volume.percent : ℚ)) * factor))),
            c.config.volume.muted⟩)
          :: (scaleLoop factor rest (mapInsert m c.id
              (clamp01 (((mapLookup m c.id).getD (c.config.volume.percent : ℚ)) * factor)))).2 :=
      rfl
    obtain ⟨ih₁, ih₂, ih₃⟩ := ih (mapInsert m c.id
      (clamp01 (((mapLookup m c.id).getD (c.config.volume.percent : ℚ)) * factor))) hnd
    have hat : ∀ c₁ ∈ rest,
        mapLookup (mapInsert m c.id
            (clamp01 (((mapLookup m c.id).getD (c.config.volume.percent : ℚ)) * factor))) c₁.id
          = mapLookup m c₁.id := by
      intro c₁ hc₁
      rw [mapLookup_insert, if_neg (fun h => hne c₁ hc₁ h.symm)]
    refine ⟨?_, ?_, ?_⟩
    · intro c₁ hc₁
      rcases List.mem_cons.mp hc₁ with rfl | hmem
      · rw [hstep1, ih₂ c₁.id (fun c₂ h₂ => hne c₂ h₂), mapLookup_insert, if_pos rfl]
      · rw [hstep1]
        have h₁ := ih₁ c₁ hmem
        rwa [hat c₁ hmem] at h₁
    · intro k hk
      rw [hstep1, ih₂ k (fun c₂ h₂ => hk c₂ (List.mem_cons_of_mem c h₂)),
        mapLookup_insert, if_neg (hk c (List.mem_cons_self c rest))]
    · rw [hstep2, ih₃, List.map_cons]
      congr 1
      exact List.map_congr_left (fun c₁ hc₁ => by rw [hat c₁ hc₁])

/-- The zero-loudest loop: with pairwise distinct member ids, each member's
entry holds exactly the target, other keys are untouched, and the command list
carries one rounded-target command per member in order. -/
theorem assignLoop_spec (target : ℚ) (l : List Client) :
    ∀ m : List (String × ℚ), (l.map Client.id).Nodup →
      (∀ c ∈ l, mapLookup (assignLoop target l m).1 c.id = some target)
        ∧ (∀ k, (∀ c ∈ l, c.id ≠ k) → mapLookup (assignLoop target l m).1 k = mapLookup m k)
        ∧ (assignLoop target l m).2
            = l.map (fun c =>
                (c.id, ⟨intToUsize (roundAway target), c.config.volume.muted⟩)) := by
  induction l with
  | nil => exact fun m _ => ⟨fun c hc => absurd hc (List.not_mem_nil c), fun k _ => rfl, rfl⟩
  | cons c rest ih =>
    intro m hnodup
    rw [List.map_cons, List.nodup_cons] at hnodup
    obtain ⟨hnotin, hnd⟩ := hnodup
    have hne : ∀ c₁ ∈ rest, c₁.id ≠ c.id := by
      intro c₁ hc₁ h
      exact hnotin (h ▸ List.mem_map_of_mem Client.id hc₁)
    obtain ⟨ih₁, ih₂, ih₃⟩ := ih (mapInsert m c.id target) hnd
    refine ⟨?_, ?_, ?_⟩
    · intro c₁ hc₁
      rcases List.mem_cons.mp hc₁ with rfl | hmem
      · show mapLookup (assignLoop target rest (mapInsert m c₁.id target)).1 c₁.id = some target
        rw [ih₂ c₁.id (fun c₂ h₂ => hne c₂ h₂), mapLookup_insert, if_pos rfl]
      · exact ih₁ c₁ hmem
    · intro k hk
      show mapLookup (assignLoop target rest (mapInsert m c.id target)).1 k = mapLookup m k
      rw [ih₂ k (fun c₂ h₂ => hk c₂ (List.mem_cons_of_mem c h₂)),
        mapLookup_insert, if_neg (hk c (List.mem_cons_self c rest))]
    · show (c.id, (⟨intToUsize (roundAway target), c.config.volume.muted⟩ : ClientVolume))
          :: (assignLoop target rest (mapInsert m c.id target)).2 = _
      rw [ih₃, List.map_cons]

/-- The shadow-with-fallback read, folded back into `effectiveVolume`. -/
theorem effectiveVolume_def (app : AppState) (c : Client) :
    (mapLookup app.fractional_volumes c.id).getD (c.config.volume.percent : ℚ)
      = effectiveVolume app c := rfl

/-- Unfolding of `set_volume` on a group focus with a nonzero loudest member:
the proportional-scaling branch runs. -/
theorem set_volume_group_scale (T : ℚ) (app : AppState) (s : SnapcastState) (gid : String)
    (g : Group) (hfocus : app.focus = some gid)
    (hfind : s.groups.find? (fun gx => gx.id == gid) = some g)
    (hlen : ¬(groupMembers g s).length = 0)
    (hloud : ¬loudestOf app (groupMembers g s) = 0) :
    set_volume T app s
      = ({ app with fractional_volumes :=
            (scaleLoop (clamp01 T / loudestOf app (groupMembers g s)) (groupMembers g s)
              app.fractional_volumes).1 },
          (scaleLoop (clamp01 T / loudestOf app (groupMembers g s)) (groupMembers g s)
            app.fractional_volumes).2, true) := by
  simp only [set_volume, hfocus, hfind]
  rw [if_neg hlen, if_neg hloud]

/-- Unfolding of `set_volume` on a group focus whose loudest member is zero:
the direct-assignment branch runs. -/
theorem set_volume_group_assign (T : ℚ) (app : AppState) (s : SnapcastState) (gid : String)
    (g : Group) (hfocus : app.focus = some gid)
    (hfind : s.groups.find? (fun gx => gx.id == gid) = some g)
    (hlen : ¬(groupMembers g s).length = 0)
    (hloud : loudestOf app (groupMembers g s) = 0) :
    set_volume T app s
      = ({ app with fractional_volumes :=
            (assignLoop (clamp01 T) (groupMembers g s) app.fractional_volumes).1 },
          (assignLoop (clamp01 T) (groupMembers g s) app.fractional_volumes).2, true) := by
  simp only [set_volume, hfocus, hfind]
  rw [if_neg hlen, if_pos hloud]

/-- C3: with a group focus, positive loudest member and a target in
`[0, 100]`, `set_volume` reports a send, scales every member's shadow by
exactly `T / loudest` (so all mutual ratios are preserved: cross-products with
the old and new loudest agree, and the ratio to the loudest is unchanged
whenever it is defined), makes the new loudest exactly `T` (hence equal
rounding), and sends per-member commands whose integer percent is within one
of the exact scaled value. -/
theorem c3_proportional_scaling (app : AppState) (s : SnapcastState) (gid : String) (g : Group)
    (T : ℚ) (hfocus : app.focus = some gid)
    (hfind : s.groups.find? (fun gx => gx.id == gid) = some g)
    (hT0 : 0 ≤ T) (hT1 : T ≤ 100)
    (hnodup : ((groupMembers g s).map Client.id).Nodup)
    (hnonneg : ∀ c ∈ groupMembers g s, 0 ≤ effectiveVolume app c)
    (hpos : 0 < loudestOf app (groupMembers g s)) :
    (set_volume T app s).2.2 = true
      ∧ loudestOf (set_volume T app s).1 (groupMembers g s) = T
      ∧ roundAway (loudestOf (set_volume T app s).1 (groupMembers g s)) = roundAway T
      ∧ (∀ c ∈ groupMembers g s,
          effectiveVolume (set_volume T app s).1 c
              = effectiveVolume app c * (T / loudestOf app (groupMembers g s))
            ∧ effectiveVolume (set_volume T app s).1 c * loudestOf app (groupMembers g s)
              = effectiveVolume app c * loudestOf (set_volume T app s).1 (groupMembers g s)
            ∧ (T ≠ 0 →
                effectiveVolume (set_volume T app s).1 c
                    / loudestOf (set_volume T app s).1 (groupMembers g s)
                  = effectiveVolume app c / loudestOf app (groupMembers g s)))
      ∧ (set_volume T app s).2.1
          = (groupMembers g s).map (fun c =>
              (c.id, ⟨intToUsize (roundAway
                  (effectiveVolume app c * (T / loudestOf app (groupMembers g s)))),
                c.config.volume.muted⟩))
      ∧ ∀ c ∈ groupMembers g s,
          |((intToUsize (roundAway (effectiveVolume (set_volume T app s).1 c)) : ℚ))
              - effectiveVolume (set_volume T app s).1 c| ≤ 1 := by
  have hL0 : loudestOf app (groupMembers g s) ≠ 0 := ne_of_gt hpos
  have hlen : ¬(groupMembers g s).length = 0 := by
    intro h
    rw [List.length_eq_zero] at h
    rw [show loudestOf app (groupMembers g s) = 0 from by rw [h]; rfl] at hpos
    exact lt_irrefl 0 hpos
  have htarget : clamp01 T = T := by
    rw [clamp01, min_eq_left hT1, max_eq_right hT0]
  have hdiv0 : 0 ≤ T / loudestOf app (groupMembers g s) := div_nonneg hT0 (le_of_lt hpos)
  have hsv := set_volume_group_scale T app s gid g hfocus hfind hlen hL0
  rw [htarget] at hsv
  obtain ⟨sp₁, sp₂, sp₃⟩ :=
    scaleLoop_spec (T / loudestOf app (groupMembers g s)) (groupMembers g s)
      app.fractional_volumes hnodup
  have hnoclamp : ∀ c ∈ groupMembers g s,
      clamp01 (effectiveVolume app c * (T / loudestOf app (groupMembers g s)))
        = effectiveVolume app c * (T / loudestOf app (groupMembers g s)) := by
    intro c hc
    have hle : effectiveVolume app c ≤ loudestOf app (groupMembers g s) :=
      le_max?_getD (List.mem_map_of_mem (effectiveVolume app) hc) 0
    have hup : effectiveVolume app c * (T / loudestOf app (groupMembers g s)) ≤ 100 := by
      calc effectiveVolume app c * (T / loudestOf app (groupMembers g s))
          ≤ loudestOf app (groupMembers g s) * (T / loudestOf app (groupMembers g s)) :=
            mul_le_mul_of_nonneg_right hle hdiv0
        _ = T := by rw [mul_comm, div_mul_cancel₀ T hL0]
        _ ≤ 100 := hT1
    have hlo : 0 ≤ effectiveVolume app c * (T / loudestOf app (groupMembers g s)) :=
      mul_nonneg (hnonneg c hc) hdiv0
    rw [clamp01, min_eq_left hup, max_eq_right hlo]
  have heff : ∀ c ∈ groupMembers g s,
      effectiveVolume (set_volume T app s).1 c
        = effectiveVolume app c * (T / loudestOf app (groupMembers g s)) := by
    intro c hc
    have h₁ := sp₁ c hc
    rw [hsv]
    show (mapLookup (scaleLoop (T / loudestOf app (groupMembers g s)) (groupMembers g s)
        app.fractional_volumes).1 c.id).getD (c.config.volume.percent : ℚ) = _
    rw [h₁, Option.getD_some, effectiveVolume_def app c, hnoclamp c hc]
  have hmax : (List.map (effectiveVolume app) (groupMembers g s)).max?
      = some (loudestOf app (groupMembers g s)) := by
    cases hmq : (List.map (effectiveVolume app) (groupMembers g s)).max? with
    | none =>
      exfalso
      rw [show loudestOf app (groupMembers g s) = 0 from by rw [loudestOf, hmq]; rfl] at hpos
      exact lt_irrefl 0 hpos
    | some x =>
      rw [show loudestOf app (groupMembers g s) = x from by rw [loudestOf, hmq]; rfl]
  have hnewloud : loudestOf (set_volume T app s).1 (groupMembers g s) = T := by
    have hmap : List.map (effectiveVolume (set_volume T app s).1) (groupMembers g s)
        = (List.map (effectiveVolume app) (groupMembers g s)).map
            (fun y => y * (T / loudestOf app (groupMembers g s))) := by
      rw [List.map_map]
      exact List.map_congr_left (fun c hc => heff c hc)
    rw [loudestOf, hmap, max?_map_mul _ hdiv0, hmax]
    show loudestOf app (groupMembers g s) * (T / loudestOf app (groupMembers g s)) = T
    rw [mul_comm, div_mul_cancel₀ T hL0]
  refine ⟨by rw [hsv], hnewloud, by rw [hnewloud], ?_, ?_, ?_⟩
  · intro c hc
    refine ⟨heff c hc, ?_, ?_⟩
    · rw [heff c hc, hnewloud]
      calc effectiveVolume app c * (T / loudestOf app (groupMembers g s))
            * loudestOf app (groupMembers g s)
          = effectiveVolume app c
            * (T / loudestOf app (groupMembers g s) * loudestOf app (groupMembers g s)) := by
            ring
        _ = effectiveVolume app c * T := by rw [div_mul_cancel₀ T hL0]
    · intro hTne
      rw [heff c hc, hnewloud]
      field_simp
      ring
  · rw [hsv]
    show (scaleLoop (T / loudestOf app (groupMembers g s)) (groupMembers g s)
        app.fractional_volumes).2 = _
    rw [sp₃]
    exact List.map_congr_left (fun c hc => by rw [effectiveVolume_def app c, hnoclamp c hc])
  · intro c hc
    refine roundAway_cast_abs_le _ ?_
    rw [heff c hc]
    exact mul_nonneg (hnonneg c hc) hdiv0

/-- C3 witness: on the spec's example group (members at 40 and 20, loudest 40),
an absolute set to 60 reports a send and makes the new loudest exactly 60. -/
theorem c3_scaling_witness :
    (set_volume 60 appFocusG stOneGroup).2.2 = true
      ∧ loudestOf (set_volume 60 appFocusG stOneGroup).1 (groupMembers groupG stOneGroup)
        = 60 := by
  have h := c3_proportional_scaling appFocusG stOneGroup "g1" groupG 60 rfl rfl
    (by norm_num) (by norm_num) (by decide) (by decide) (by decide)
  exact ⟨h.1, h.2.1⟩

/-- C4: with a group focus, at least one member, and every member's shadow
volume zero, `set_volume` reports a send, assigns every member's shadow exactly
the (clamped) target, and issues one command per member carrying the rounded
target. -/
theorem c4_zero_loudest_assigns_target (app : AppState) (s : SnapcastState) (gid : String)
    (g : Group) (T : ℚ) (hfocus : app.focus = some gid)
    (hfind : s.groups.find? (fun gx => gx.id == gid) = some g)
    (hT0 : 0 ≤ T) (hT1 : T ≤ 100)
    (hne : groupMembers g s ≠ [])
    (hnodup : ((groupMembers g s).map Client.id).Nodup)
    (hzero : ∀ c ∈ groupMembers g s, effectiveVolume app c = 0) :
    (set_volume T app s).2.2 = true
      ∧ (∀ c ∈ groupMembers g s,
          mapLookup (set_volume T app s).1.fractional_volumes c.id = some T)
      ∧ (set_volume T app s).2.1
          = (groupMembers g s).map (fun c =>
              (c.id, ⟨intToUsize (roundAway T), c.config.volume.muted⟩)) := by
  have hlen : ¬(groupMembers g s).length = 0 := by
    intro h
    exact hne (List.length_eq_zero.mp h)
  have hloud : loudestOf app (groupMembers g s) = 0 := by
    cases hgm : groupMembers g s with
    | nil => exact absurd hgm hne
    | cons c₀ rest =>
      rw [loudestOf, List.map_cons]
      have h : ((effectiveVolume app c₀) :: List.map (effectiveVolume app) rest).max?
          = some ((List.map (effectiveVolume app) rest).foldl max (effectiveVolume app c₀)) := rfl
      rw [h, Option.getD_some, hzero c₀ (by rw [hgm]; exact List.mem_cons_self c₀ rest)]
      refine foldl_max_of_all_le _ 0 ?_
      intro x hx
      obtain ⟨c₁, hc₁, hxe⟩ := List.mem_map.mp hx
      rw [← hxe, hzero c₁ (by rw [hgm]; exact List.mem_cons_of_mem c₀ hc₁)]
  have htarget : clamp01 T = T := by
    rw [clamp01, min_eq_left hT1, max_eq_right hT0]
  have hsv := set_volume_group_assign T app s gid g hfocus hfind hlen hloud
  rw [htarget] at hsv
  obtain ⟨sp₁, _, sp₃⟩ := assignLoop_spec T (groupMembers g s) app.fractional_volumes hnodup
  refine ⟨by rw [hsv], fun c hc => ?_, by rw [hsv]; exact sp₃⟩
  rw [hsv]
  exact sp₁ c hc

/-- C4 witness: on the all-silent group, an absolute set to 25 writes exactly
25 into both members' shadows and sends one rounded-25 command per member. -/
theorem c4_zero_loudest_witness :
    (set_volume 25 appFocusG stAllZero).2.2 = true
      ∧ mapLookup (set_volume 25 appFocusG stAllZero).1.fractional_volumes "c1" = some 25
      ∧ mapLookup (set_volume 25 appFocusG stAllZero).1.fractional_volumes "c2" = some 25
      ∧ (set_volume 25 appFocusG stAllZero).2.1
        = [("c1", ⟨intToUsize (roundAway 25), false⟩),
           ("c2", ⟨intToUsize (roundAway 25), false⟩)] := by
  have h := c4_zero_loudest_assigns_target appFocusG stAllZero "g1" groupG 25 rfl rfl
    (by norm_num) (by norm_num) (by decide) (by decide) (by decide)
  refine ⟨h.1, ?_, ?_, ?_⟩
  · exact h.2.1 clientA0 (by decide)
  · exact h.2.1 clientB0 (by decide)
  · rw [h.2.2]
    rfl

/-- Every command emitted by the scaling loop belongs to a member and carries
that member's current mute flag unchanged. -/
theorem scaleLoop_cmds_from (factor : ℚ) (l : List Client) :
    ∀ (m : List (String × ℚ)) (cmd : String × ClientVolume), cmd ∈ (scaleLoop factor l m).2 →
      ∃ c, c ∈ l ∧ cmd.1 = c.id ∧ cmd.2.muted = c.config.volume.muted := by
  induction l with
  | nil => exact fun m cmd h => absurd h (List.not_mem_nil cmd)
  | cons c rest ih =>
    intro m cmd h
    have hstep : (scaleLoop factor (c :: rest) m).2
        = (c.id, ⟨intToUsize (roundAway
              (clamp01 (((mapLookup m c.id).getD (c.config.volume.percent : ℚ)) * factor))),
            c.config.volume.muted⟩)
          :: (scaleLoop factor rest (mapInsert m c.id
              (clamp01 (((mapLookup m c.id).getD (c.config.volume.percent : ℚ)) * factor)))).2 :=
      rfl
    rw [hstep] at h
    rcases List.mem_cons.mp h with rfl | hmem
    · exact ⟨c, List.mem_cons_self c rest, rfl, rfl⟩
    · obtain ⟨c₁, hc₁, he₁, he₂⟩ := ih _ cmd hmem
      exact ⟨c₁, List.mem_cons_of_mem c hc₁, he₁, he₂⟩

/-- Every command emitted by the zero-loudest loop belongs to a member and
carries that member's current mute flag unchanged. -/
theorem assignLoop_cmds_from (target : ℚ) (l : List Client) :
    ∀ (m : List (String × ℚ)) (cmd : String × ClientVolume), cmd ∈ (assignLoop target l m).2 →
      ∃ c, c ∈ l ∧ cmd.1 = c.id ∧ cmd.2.muted = c.config.volume.muted := by
  induction l with
  | nil => exact fun m cmd h => absurd h (List.not_mem_nil cmd)
  | cons c rest ih =>
    intro m cmd h
    have hstep : (assignLoop target (c :: rest) m).2
        = (c.id, ⟨intToUsize (roundAway target), c.config.volume.muted⟩)
          :: (assignLoop target rest (mapInsert m c.id target)).2 := rfl
    rw [hstep] at h
    rcases List.mem_cons.mp h with rfl | hmem
    · exact ⟨c, List.mem_cons_self c rest, rfl, rfl⟩
    · obtain ⟨c₁, hc₁, he₁, he₂⟩ := ih _ cmd hmem
      exact ⟨c₁, List.mem_cons_of_mem c hc₁, he₁, he₂⟩

/-- C9: an Endpoint mute toggle sends a combined update that keeps the current
percent and only flips the mute flag, and every volume-set command sent by
`set_volume` targets an existing Endpoint and keeps that Endpoint's current
mute flag, changing only the percent. -/
theorem c9_commands_change_only_intended_field (app : AppState) (s : SnapcastState) :
    (∀ (id : String) (c : Client), app.focus = some id →
        s.groups.find? (fun gx => gx.id == id) = none →
        s.clients.find? (fun cx => cx.id == id) = some c →
        toggle_mute app s
          = ([.setClientVolume c.id ⟨c.config.volume.percent, !c.config.volume.muted⟩], true))
      ∧ ∀ (T : ℚ) (cmd : String × ClientVolume), cmd ∈ (set_volume T app s).2.1 →
          ∃ c, c ∈ s.clients ∧ cmd.1 = c.id ∧ cmd.2.muted = c.config.volume.muted := by
  constructor
  · intro id c hfocus hg hc
    simp [toggle_mute, hfocus, hg, hc]
  · intro T cmd hcmd
    rcases hfocus : app.focus with _ | id
    · simp [set_volume, hfocus] at hcmd
    · rcases hg : s.groups.find? (fun gx => gx.id == id) with _ | group
      · rcases hc : s.clients.find? (fun cx => cx.id == id) with _ | client
        · simp [set_volume, hfocus, hg, hc] at hcmd
        · simp only [set_volume, hfocus, hg, hc, List.mem_singleton] at hcmd
          refine ⟨client, List.mem_of_find?_eq_some hc, ?_, ?_⟩
          · rw [hcmd]
          · rw [hcmd]
      · by_cases hlen : (groupMembers group s).length = 0
        · simp [set_volume, hfocus, hg, hlen] at hcmd
        · by_cases hloud : loudestOf app (groupMembers group s) = 0
          · rw [set_volume_group_assign T app s id group hfocus hg hlen hloud] at hcmd
            obtain ⟨c, hc, he₁, he₂⟩ :=
              assignLoop_cmds_from (clamp01 T) (groupMembers group s)
                app.fractional_volumes cmd hcmd
            exact ⟨c, (List.mem_filter.mp hc).1, he₁, he₂⟩
          · rw [set_volume_group_scale T app s id group hfocus hg hlen hloud] at hcmd
            obtain ⟨c, hc, he₁, he₂⟩ :=
              scaleLoop_cmds_from (clamp01 T / loudestOf app (groupMembers group s))
                (groupMembers group s) app.fractional_volumes cmd hcmd
            exact ⟨c, (List.mem_filter.mp hc).1, he₁, he₂⟩

/-- C9 witness: toggling mute on the focused Endpoint c2 sends exactly its
current percent with the flipped flag, and the single volume-set command sent
by an absolute set on c2 targets an existing Endpoint and keeps its mute
flag. -/
theorem c9_commands_witness :
    toggle_mute appFocusC2 stOneGroup
        = ([.setClientVolume clientB.id
            ⟨clientB.config.volume.percent, !clientB.config.volume.muted⟩], true)
      ∧ ∃ c, c ∈ stOneGroup.clients
          ∧ (clientB.id, (⟨intToUsize (roundAway (clamp01 60)),
              clientB.config.volume.muted⟩ : ClientVolume)).1 = c.id
          ∧ (clientB.id, (⟨intToUsize (roundAway (clamp01 60)),
              clientB.config.volume.muted⟩ : ClientVolume)).2.muted = c.config.volume.muted := by
  constructor
  · exact (c9_commands_change_only_intended_field appFocusC2 stOneGroup).1 "c2" clientB
      rfl rfl rfl
  · refine (c9_commands_change_only_intended_field appFocusC2 stOneGroup).2 60
      (clientB.id, ⟨intToUsize (roundAway (clamp01 60)), clientB.config.volume.muted⟩) ?_
    have hlist : (set_volume 60 appFocusC2 stOneGroup).2.1
        = [(clientB.id, ⟨intToUsize (roundAway (clamp01 60)),
            clientB.config.volume.muted⟩)] := rfl
    rw [hlist]
    exact List.mem_singleton_self _

end Snapmixer
